import Mathlib

/-!
Shallow embedding of the transaction-parsing core of `src/app.py`
(an economy dashboard that ingests Norwegian bank-statement PDFs).

Lines of extracted page text are modelled as `List Char`.  Python's
`float` amounts are modelled as exact cent counts (`Nat`): every amount
the pipeline parses has exactly two decimal digits, and the plausibility
comparisons `1.0 <= amt < 20000.0` agree with the comparisons on cents
(100 and 2000000), since double rounding of values k/100 never crosses
the integer bounds 1 and 20000.

Python exceptions are modelled with `Except Unit`: the bare `except:
continue` in `parse_pdf` is embedded directly as the `none` branches of
`parseLine`, while conditions the code does not catch (a `None` page
text, a file whose reading raises) surface as `Except.error`.
-/

/-- Python's regex `\s` class over the ASCII range, the alphabet of the
statement lines this app processes. -/
def isPySpace (c : Char) : Bool :=
  c = ' ' || c = '\t' || c = '\n' || c = '\x0b' || c = '\x0c' || c = '\r'

/-- Character class `[\d\s.]` from the amount pattern in `parse_pdf`. -/
def classChar (c : Char) : Bool :=
  c.isDigit || isPySpace c || c = '.'

/-- Match of `\d+[\d\s.]*,\d{2}` at the head of `l`, returning the
matched token.  Since `,` is not in the class `[\d\s.]`, the comma of a
successful match is forced to be the first non-class character after the
leading digit, so the greedy match is unique. -/
def tokenAt : List Char → Option (List Char)
  | [] => none
  | c :: rest =>
    if c.isDigit then
      match rest.dropWhile classChar with
      | ',' :: d1 :: d2 :: _ =>
        if d1.isDigit && d2.isDigit then
          some (c :: rest.takeWhile classChar ++ [',', d1, d2])
        else none
      | _ => none
    else none

/-- One step of `re.search(r'(.*?)\s+(\d+[\d\s.]*,\d{2})', line)`:
the lazy group `(.*?)` grows from the left; at each position a greedy
`\s+` forces the amount token to start at the end of the whitespace
run. Returns `(group1, group2)`. -/
def sdGo : List Char → List Char → Option (List Char × List Char)
  | _, [] => none
  | pre, c :: cs =>
    if isPySpace c then
      match tokenAt ((c :: cs).dropWhile isPySpace) with
      | some tok => some (pre, tok)
      | none => sdGo (pre ++ [c]) cs
    else sdGo (pre ++ [c]) cs

/-- The full search `re.search(r'(.*?)\s+(\d+[\d\s.]*,\d{2})', line)`;
statement lines come from `text.split('\n')` and so contain no newline,
hence the match, if any, starts at position 0. -/
def searchDescAmt (line : List Char) : Option (List Char × List Char) :=
  sdGo [] line

/-- A suffix of the line at which the regex tail `\s+(\d+[\d\s.]*,\d{2})`
can match: a whitespace character followed (after the whitespace run) by
an amount token. -/
def viable : List Char → Bool
  | [] => false
  | c :: cs => isPySpace c && (tokenAt ((c :: cs).dropWhile isPySpace)).isSome

/-- Boilerplate substrings skipped by `parse_pdf` (line 48 of app.py). -/
def noiseList : List String :=
  ["4212.02.65827", "IBAN", "Saldo", "Referanse", "Side"]

/-- The check `any(x in line for x in [...])`. -/
def noiseCheck (line : List Char) : Bool :=
  noiseList.any (fun n => decide (n.data <:+: line))

/-- The amount cleanup `amt.replace(' ', '').replace('.', '').replace(',', '.')`. -/
def normalizeAmt (tok : List Char) : List Char :=
  ((tok.filter (fun c => decide (c ≠ ' '))).filter (fun c => decide (c ≠ '.'))).map
    (fun c => if c = ',' then '.' else c)

/-- Decimal digit string to number. -/
def natOfDigits (l : List Char) : Nat :=
  l.foldl (fun n c => 10 * n + (c.toNat - 48)) 0

/-- Python `float` on the strings the amount normalization produces
(digits, one dot, two fraction digits), as a cent count.  Any leftover
whitespace (a tab the `replace(' ', '')` did not remove) or other stray
character makes `float` raise, modelled as `none`. -/
def pyFloatCents (s : List Char) : Option Nat :=
  match s.dropWhile Char.isDigit with
  | '.' :: f1 :: f2 :: rest =>
    if s.takeWhile Char.isDigit ≠ [] ∧ f1.isDigit ∧ f2.isDigit ∧ rest = [] then
      some (natOfDigits (s.takeWhile Char.isDigit) * 100 +
        (10 * (f1.toNat - 48) + (f2.toNat - 48)))
    else none
  | _ => none

/-- First match of `re.search(r'(\d{4})', line)`: the leftmost run of
four consecutive digits. -/
def firstFourDigits : List Char → Option (Char × Char × Char × Char)
  | a :: b :: c :: d :: rest =>
    if a.isDigit && b.isDigit && c.isDigit && d.isDigit then some (a, b, c, d)
    else firstFourDigits (b :: c :: d :: rest)
  | _ => none

/-- The derived `date_str`, defaulting to `"0101"` when the line has no
four-digit run. -/
def dateOf (line : List Char) : List Char :=
  match firstFourDigits line with
  | some (a, b, c, d) => [a, b, c, d]
  | none => ['0', '1', '0', '1']

/-- `int(date_str[2:4])`; `date_str` always holds four digits. -/
def monthOf : List Char → Nat
  | _ :: _ :: c :: d :: _ => 10 * (c.toNat - 48) + (d.toNat - 48)
  | _ => 0

/-- English month names, as produced by `strftime('%B')`. -/
def monthNames : List String :=
  ["January", "February", "March", "April", "May", "June",
   "July", "August", "September", "October", "November", "December"]

/-- `datetime(2025, m, 1).strftime('%B')`: a name for months 1..12,
a raised `ValueError` (modelled as `none`) otherwise. -/
def monthName (m : Nat) : Option String :=
  if 1 ≤ m ∧ m ≤ 12 then monthNames.get? (m - 1) else none

/-- Python `str.strip()` on statement-line text. -/
def pyStrip (l : List Char) : List Char :=
  ((l.dropWhile isPySpace).reverse.dropWhile isPySpace).reverse

/-- `re.sub(r'^\d{4}\s+', '', desc)`: drop a leading four-digit token
and the whitespace run after it, when both are present. -/
def cleanDatePrefix (l : List Char) : List Char :=
  match l with
  | a :: b :: c :: d :: rest =>
    if a.isDigit && b.isDigit && c.isDigit && d.isDigit then
      match rest with
      | e :: _ => if isPySpace e then rest.dropWhile isPySpace else l
      | [] => l
    else l
  | _ => l

/-- Python `str.lower` restricted to ASCII letters plus the Norwegian
letters occurring in this app's configuration. -/
def pyToLower (c : Char) : Char :=
  if 'A' ≤ c ∧ c ≤ 'Z' then Char.ofNat (c.toNat + 32)
  else if c = 'Ø' then 'ø'
  else if c = 'Å' then 'å'
  else if c = 'Æ' then 'æ'
  else c

/-- The ordered category table of `get_category` (a Python dict literal;
dict iteration preserves insertion order). -/
def mapping : List (String × List String) :=
  [("Subscriptions",
     ["apple.com", "adobe", "openai", "chatgpt", "microsoft", "spotify", "muslimi.com"]),
   ("Health", ["legesenter", "apotek", "vitus", "fokus", "lege"]),
   ("Savings", ["småsparing"]),
   ("Travel", ["atb", "vy", "fly", "taxi", "uber", "ruten", "feriereiser"]),
   ("Food & Groceries", ["kiwi", "rema", "coop", "meny", "mcdonalds", "food", "restaurant"]),
   ("Charity/Donations", ["yousuf", "launchgood", "dawah", "relief"]),
   ("Income", ["lønn", "salary", "fra:"]),
   ("Vipps/Transfers", ["vipps", "overføring", "til:"])]

/-- `any(k in d for k in keywords)` for one table entry. -/
def entryMatches (d : List Char) (e : String × List String) : Bool :=
  e.2.any (fun k => decide (k.data <:+: d))

/-- The classifier `get_category` of app.py: first matching table entry
wins, fallback `'General Shopping'`. -/
def get_category (desc : List Char) : String :=
  match mapping.find? (entryMatches (desc.map pyToLower)) with
  | some e => e.1
  | none => "General Shopping"

/-- One row appended to `data` by `parse_pdf`, field for field. -/
structure Transaction where
  month : String
  dateCode : List Char
  description : List Char
  amountCents : Nat
  category : String
deriving DecidableEq, Repr

/-- The body of the per-line loop of `parse_pdf`: noise skip, regex
search, amount normalization and bounds check, month derivation (whose
failure the bare `except` swallows), and row construction. -/
def parseLine (line : List Char) : Option Transaction :=
  if noiseCheck line then none
  else
    match searchDescAmt line with
    | none => none
    | some (g1, tok) =>
      match pyFloatCents (normalizeAmt tok) with
      | none => none
      | some amt =>
        if 100 ≤ amt ∧ amt < 2000000 then
          match monthName (monthOf (dateOf line)) with
          | some mn =>
            some { month := mn, dateCode := dateOf line,
                   description := cleanDatePrefix (pyStrip g1),
                   amountCents := amt, category := get_category (pyStrip g1) }
          | none => none
        else none

/-- Python `text.split('\n')`: split at every newline, keeping empty
pieces, so the empty text yields the single empty line. -/
def splitLines : List Char → List (List Char)
  | [] => [[]]
  | c :: rest =>
    match splitLines rest with
    | [] => [[c]]
    | x :: xs => if c = '\n' then [] :: x :: xs else (c :: x) :: xs

/-- All rows produced from one page text (`text.split('\n')` then the
per-line loop). -/
def parsePage (t : String) : List Transaction :=
  (splitLines t.data).filterMap parseLine

/-- `parse_pdf` over a document's pages.  A page is `some text` when
`extract_text()` returned a string and `none` when it returned null, in
which case `text.split('\n')` raises and nothing in `parse_pdf`
catches it. -/
def parsePdf : List (Option String) → Except Unit (List Transaction)
  | [] => Except.ok []
  | Option.none :: _ => Except.error ()
  | some t :: rest =>
    match parsePdf rest with
    | Except.ok ts => Except.ok (parsePage t ++ ts)
    | Except.error e => Except.error e

/-- The upload loop: `parse_pdf(f)` per file with no surrounding
handler (a file whose reading raises is `Except.error` and aborts the
batch), keeping non-empty frames only. -/
def collectData : List (Except Unit (List (Option String))) → Except Unit (List (List Transaction))
  | [] => Except.ok []
  | f :: fs =>
    match f with
    | Except.error e => Except.error e
    | Except.ok pages =>
      match parsePdf pages with
      | Except.error e => Except.error e
      | Except.ok ts =>
        match collectData fs with
        | Except.error e => Except.error e
        | Except.ok rest => Except.ok (if ts = [] then rest else ts :: rest)

/-- Rows of the frame not seen so far, in order; the worker of
`drop_duplicates`. -/
def dropDupAux {α : Type} [DecidableEq α] (seen : List α) : List α → List α
  | [] => []
  | a :: l => if a ∈ seen then dropDupAux seen l else a :: dropDupAux (a :: seen) l

/-- `pandas.DataFrame.drop_duplicates` with default arguments: keep the
first occurrence of each full row. -/
def dropDuplicates {α : Type} [DecidableEq α] (l : List α) : List α :=
  dropDupAux [] l

/-- `pd.concat(all_data).drop_duplicates()` over the collected frames. -/
def master_df (files : List (Except Unit (List (Option String)))) :
    Except Unit (List Transaction) :=
  match collectData files with
  | Except.error e => Except.error e
  | Except.ok ds => Except.ok (dropDuplicates ds.flatten)

/-- Occurrence count of a row in a frame. -/
def countOcc {α : Type} [DecidableEq α] (a : α) (l : List α) : Nat :=
  (l.filter (fun x => decide (x = a))).length

/-- Inversion of a successful parse: every emitted row passed the noise
filter, the regex search, the amount parse, the bounds check and the
month derivation, and its fields are exactly those `parse_pdf` builds. -/
theorem parseLine_inv {line : List Char} {t : Transaction}
    (h : parseLine line = some t) :
    noiseCheck line = false ∧
    ∃ g1 tok amt mn, searchDescAmt line = some (g1, tok) ∧
      pyFloatCents (normalizeAmt tok) = some amt ∧
      (100 ≤ amt ∧ amt < 2000000) ∧
      monthName (monthOf (dateOf line)) = some mn ∧
      t = ⟨mn, dateOf line, cleanDatePrefix (pyStrip g1), amt,
        get_category (pyStrip g1)⟩ := by
  unfold parseLine at h
  split at h
  · exact absurd h (by simp)
  · next hn =>
    refine ⟨by simpa using hn, ?_⟩
    split at h
    · exact absurd h (by simp)
    · next g1 tok hsearch =>
      split at h
      · exact absurd h (by simp)
      · next amt hfloat =>
        split at h
        · next hb =>
          split at h
          · next mn hmn =>
            exact ⟨g1, tok, amt, mn, hsearch, hfloat, hb, hmn,
              by cases h; rfl⟩
          · exact absurd h (by simp)
        · exact absurd h (by simp)

/-- The searcher finds the leftmost viable position: wherever it
reports a match, every strictly earlier suffix fails the regex tail. -/
theorem sdGo_leftmost (rest : List Char) : ∀ pre g1 tok,
    sdGo pre rest = some (g1, tok) →
    ∃ p, g1 = pre ++ rest.take p ∧ viable (rest.drop p) = true ∧
      tok = (tokenAt ((rest.drop p).dropWhile isPySpace)).getD [] ∧
      ∀ q, q < p → viable (rest.drop q) = false := by
  induction rest with
  | nil => intro pre g1 tok h; simp [sdGo] at h
  | cons c cs ih =>
    intro pre g1 tok h
    rw [sdGo] at h
    split at h
    · next hc =>
      split at h
      · next tok0 htk =>
        simp only [List.dropWhile_cons, hc, if_true] at htk
        obtain ⟨h1, h2⟩ : pre = g1 ∧ tok0 = tok := by
          constructor <;> [skip; skip] <;> injection h with h3 <;>
            cases h3 <;> rfl
        refine ⟨0, by simp [h1], ?_, ?_, by omega⟩
        · simp [viable, hc, htk]
        · simp [List.dropWhile_cons, hc, htk, h2]
      · next htk =>
        simp only [List.dropWhile_cons, hc, if_true] at htk
        obtain ⟨p, h1, h2, h3, h4⟩ := ih (pre ++ [c]) g1 tok h
        refine ⟨p + 1, by simp [h1], by simpa using h2, by simpa using h3, ?_⟩
        intro q hq
        match q with
        | 0 => simp [viable, hc, htk]
        | q + 1 => simpa using h4 q (by omega)
    · next hc =>
      obtain ⟨p, h1, h2, h3, h4⟩ := ih (pre ++ [c]) g1 tok h
      refine ⟨p + 1, by simp [h1], by simpa using h2, by simpa using h3, ?_⟩
      intro q hq
      match q with
      | 0 => simp [viable, hc]
      | q + 1 => simpa using h4 q (by omega)

/-- A decimal digit is none of the three separator characters. -/
theorem digit_ne_sep {c : Char} (h : c.isDigit = true) :
    c ≠ ' ' ∧ c ≠ '.' ∧ c ≠ ',' := by
  refine ⟨?_, ?_, ?_⟩ <;> rintro rfl <;> exact absurd h (by decide)

/-- Removing the spaces and then the dots of a token made of digits,
spaces and dots leaves exactly its digits. -/
theorem filter_spaces_dots : ∀ (run : List Char),
    (∀ c ∈ run, c.isDigit = true ∨ c = ' ' ∨ c = '.') →
    (run.filter (fun c => decide (c ≠ ' '))).filter (fun c => decide (c ≠ '.')) =
      run.filter Char.isDigit
  | [], _ => rfl
  | c :: run, h => by
    have hr := filter_spaces_dots run (fun x hx => h x (List.mem_cons_of_mem _ hx))
    rcases h c (List.mem_cons_self _ _) with h1 | h1 | h1
    · obtain ⟨hs, hd, -⟩ := digit_ne_sep h1
      rw [List.filter_cons, if_pos (by simpa using hs), List.filter_cons,
        if_pos (by simpa using hd), List.filter_cons, if_pos h1, hr]
    · subst h1
      rw [List.filter_cons, if_neg (by decide), List.filter_cons,
        if_neg (by decide), hr]
    · subst h1
      rw [List.filter_cons, if_pos (by decide), List.filter_cons,
        if_neg (by decide), List.filter_cons, if_neg (by decide), hr]

/-- The decimal-comma substitution is the identity on digit strings. -/
theorem map_comma_id : ∀ (l : List Char), (∀ c ∈ l, c.isDigit = true) →
    l.map (fun c => if c = ',' then '.' else c) = l
  | [], _ => rfl
  | c :: l, h => by
    have hr := map_comma_id l (fun x hx => h x (List.mem_cons_of_mem _ hx))
    have hc := (digit_ne_sep (h c (List.mem_cons_self _ _))).2.2
    simp [hr, hc]

/-- Splitting a digit string followed by a dot at the dot. -/
theorem take_drop_digits : ∀ (xs zs : List Char), (∀ c ∈ xs, c.isDigit = true) →
    (xs ++ '.' :: zs).takeWhile Char.isDigit = xs ∧
      (xs ++ '.' :: zs).dropWhile Char.isDigit = '.' :: zs
  | [], zs, _ => by simp
  | x :: xs, zs, h => by
    have ih := take_drop_digits xs zs (fun c hc => h c (List.mem_cons_of_mem _ hc))
    have hx := h x (List.mem_cons_self _ _)
    simp [List.takeWhile_cons, List.dropWhile_cons, hx, ih.1, ih.2]

/-- Shape of a normalized amount token: leading digit, digit group,
decimal point, two fraction digits. -/
theorem normalizeAmt_shape (d : Char) (run : List Char) (d1 d2 : Char)
    (hd : d.isDigit = true)
    (h : ∀ c ∈ run, c.isDigit = true ∨ c = ' ' ∨ c = '.')
    (h1 : d1.isDigit = true) (h2 : d2.isDigit = true) :
    normalizeAmt (d :: run ++ [',', d1, d2]) =
      (d :: run.filter Char.isDigit) ++ '.' :: [d1, d2] := by
  obtain ⟨hds, hdd, hdc⟩ := digit_ne_sep hd
  obtain ⟨h1s, h1d, h1c⟩ := digit_ne_sep h1
  obtain ⟨h2s, h2d, h2c⟩ := digit_ne_sep h2
  have hdig : ∀ c ∈ run.filter Char.isDigit, c.isDigit = true :=
    fun c hc => (List.mem_filter.mp hc).2
  have e1 : List.filter (fun c => decide (c ≠ ' ')) [',', d1, d2] = [',', d1, d2] := by
    simp [h1s, h2s]
  have e2 : List.filter (fun c => decide (c ≠ '.')) [',', d1, d2] = [',', d1, d2] := by
    simp [h1d, h2d]
  have e3 : List.map (fun c => if c = ',' then '.' else c) [',', d1, d2] =
      '.' :: [d1, d2] := by
    simp [h1c, h2c]
  unfold normalizeAmt
  rw [List.filter_append, List.filter_cons, if_pos (by simpa using hds), e1,
    List.filter_append, List.filter_cons, if_pos (by simpa using hdd), e2,
    List.map_append, List.map_cons, if_neg hdc, e3,
    filter_spaces_dots run h, map_comma_id _ hdig]

/-- Month derivation fails outside 1..12, matching the `ValueError`
raised by `datetime`. -/
theorem monthName_eq_none {m : Nat} (h : ¬(1 ≤ m ∧ m ≤ 12)) :
    monthName m = none := by
  unfold monthName
  rw [if_neg h]

/-- The first entry of a list satisfying the predicate is found. -/
theorem find?_first {α : Type} (p : α → Bool) :
    ∀ (l1 : List α) (e : α) (l2 : List α),
      (∀ x ∈ l1, p x = false) → p e = true →
      List.find? p (l1 ++ e :: l2) = some e
  | [], e, l2, _, he => by simp [List.find?_cons_of_pos _ he]
  | x :: l1, e, l2, h, he => by
    have hx : p x = false := h x (List.mem_cons_self _ _)
    rw [List.cons_append, List.find?_cons_of_neg _ (by simp [hx])]
    exact find?_first p l1 e l2 (fun y hy => h y (List.mem_cons_of_mem _ hy)) he

/-- Occurrence count after prepending one row. -/
theorem countOcc_cons {α : Type} [DecidableEq α] (a b : α) (l : List α) :
    countOcc a (b :: l) = (if b = a then 1 else 0) + countOcc a l := by
  unfold countOcc
  rw [List.filter_cons]
  by_cases h : b = a
  · rw [if_pos (by simpa using h), if_pos h]
    simp [List.length_cons]
    omega
  · rw [if_neg (by simpa using h), if_neg h]
    omega

/-- Occurrence count through the `drop_duplicates` worker: a row
already seen is dropped entirely, otherwise exactly one copy of each
present row survives. -/
theorem countOcc_dropDupAux {α : Type} [DecidableEq α] (l : List α) :
    ∀ (seen : List α) (t : α),
      countOcc t (dropDupAux seen l) =
        if t ∈ seen then 0 else if t ∈ l then 1 else 0 := by
  induction l with
  | nil =>
    intro seen t
    by_cases h : t ∈ seen <;> simp [dropDupAux, countOcc, h]
  | cons a l ih =>
    intro seen t
    rw [dropDupAux]
    by_cases ha : a ∈ seen
    · rw [if_pos ha, ih seen t]
      by_cases hts : t ∈ seen
      · simp [hts]
      · have hta : t ≠ a := fun h => hts (h ▸ ha)
        simp [hts, List.mem_cons, hta]
    · rw [if_neg ha, countOcc_cons, ih (a :: seen) t]
      by_cases hta : a = t
      · subst hta
        rw [if_pos rfl, if_pos (List.mem_cons_self _ _), if_neg ha,
          if_pos (List.mem_cons_self _ _)]
      · rw [if_neg hta]
        by_cases hts : t ∈ seen
        · rw [if_pos (List.mem_cons_of_mem _ hts), if_pos hts]
        · have h1 : t ∉ a :: seen := by
            intro hmem
            rcases List.mem_cons.mp hmem with h | h
            · exact hta h.symm
            · exact hts h
          have h2 : (t ∈ a :: l) ↔ t ∈ l :=
            ⟨fun hmem => (List.mem_cons.mp hmem).resolve_left (fun h => hta h.symm),
             fun hmem => List.mem_cons_of_mem _ hmem⟩
          rw [if_neg h1, if_neg hts, if_congr h2 rfl rfl, Nat.zero_add]

/-- `drop_duplicates` keeps exactly one copy of each present row and
nothing else. -/
theorem countOcc_dropDuplicates {α : Type} [DecidableEq α] (l : List α) (t : α) :
    countOcc t (dropDuplicates l) = if t ∈ l then 1 else 0 := by
  rw [dropDuplicates, countOcc_dropDupAux l [] t, if_neg (List.not_mem_nil t)]

/-- C1 (counterexample): the claim's own example line contains the
noise token `"Saldo"`, so `parse_pdf` discards it before any amount
extraction; it yields no Transaction at all, rather than the amount
`349.00` the claim asserts. -/
theorem c1_counterexample :
    parseLine "0112 KIWI 349,00 Saldo 18.204,55".data = none := by decide

/-- C1 (amended): whenever the parser extracts a description/amount
pair, the amount token sits at the leftmost position where a
whitespace run followed by a currency-shaped token begins (every
strictly earlier suffix fails); on the noise-free variant of the
claim's example, `"0112 KIWI 349,00 Balanse 18.204,55"`, the leftmost
amount `349.00` is extracted and the balance token is not selected. -/
theorem c1_amended :
    (∀ line g1 tok, searchDescAmt line = some (g1, tok) →
      ∃ p, g1 = line.take p ∧ viable (line.drop p) = true ∧
        tok = (tokenAt ((line.drop p).dropWhile isPySpace)).getD [] ∧
        ∀ q, q < p → viable (line.drop q) = false) ∧
    parseLine "0112 KIWI 349,00 Balanse 18.204,55".data =
      some ⟨"December", ['0', '1', '1', '2'], ['K', 'I', 'W', 'I'], 34900,
        "Food & Groceries"⟩ := by
  refine ⟨?_, by decide⟩
  intro line g1 tok h
  simpa using sdGo_leftmost line [] g1 tok h

/-- C1 (witness): the leftmost-match property instantiated on the
concrete line `"A 1,00"`. -/
theorem c1_witness :
    ∃ p, ['A'] = List.take p "A 1,00".data ∧
      viable (List.drop p "A 1,00".data) = true ∧
      ['1', ',', '0', '0'] =
        (tokenAt (List.dropWhile isPySpace (List.drop p "A 1,00".data))).getD [] ∧
      ∀ q, q < p → viable (List.drop q "A 1,00".data) = false :=
  c1_amended.1 "A 1,00".data ['A'] ['1', ',', '0', '0'] (by decide)

/-- C2: every emitted Transaction's amount lies in the configured
plausibility window `1.0 <= amt < 20000.0` (in cents: 100 to 2000000),
and the out-of-range amounts `25500.00` and `0.50` are discarded,
leaving no Transaction from their lines. -/
theorem c2_bounds :
    (∀ line t, parseLine line = some t →
      100 ≤ t.amountCents ∧ t.amountCents < 2000000) ∧
    parseLine "X 25500,00".data = none ∧
    parseLine "X 0,50".data = none := by
  refine ⟨?_, by decide, by decide⟩
  intro line t h
  obtain ⟨-, g1, tok, amt, mn, -, -, hb, -, ht⟩ := parseLine_inv h
  rw [ht]
  exact hb

/-- C2 (witness): the bounds property instantiated on the in-range
line `"A 5,00"`. -/
theorem c2_witness :
    100 ≤ (Transaction.mk "January" ['0', '1', '0', '1'] ['A'] 500
        "General Shopping").amountCents ∧
      (Transaction.mk "January" ['0', '1', '0', '1'] ['A'] 500
        "General Shopping").amountCents < 2000000 :=
  c2_bounds.1 "A 5,00".data _ (by decide)

/-- C3: a line containing any configured noise substring - the masked
account fragment `4212.02.65827`, `IBAN`, `Saldo`, `Referanse` or
`Side` - never produces a Transaction, whatever else it contains. -/
theorem c3_noise (line : List Char) (x : String) (hx : x ∈ noiseList)
    (hs : x.data <:+: line) : parseLine line = none := by
  have hnc : noiseCheck line = true := by
    unfold noiseCheck
    rw [List.any_eq_true]
    exact ⟨x, hx, by simpa using hs⟩
  unfold parseLine
  rw [if_pos hnc]

/-- C3 (witness): the noise-rejection theorem applied to a line
containing `"IBAN"` and a currency-shaped token. -/
theorem c3_witness : parseLine "IBAN 123,45".data = none :=
  c3_noise "IBAN 123,45".data "IBAN" (by decide) (by decide)

/-- C4: normalization of any currency token (leading digit, digit
group with interior spaces and dots, comma, two fraction digits)
strips the spaces and dots, turns the comma into a decimal point and
parses to exactly the value its digits spell; in particular
`"1.529,00"` parses to 1529.00 and `"349,00"` to 349.00. -/
theorem c4_normalization :
    (∀ (d : Char) (run : List Char) (d1 d2 : Char),
      d.isDigit = true →
      (∀ c ∈ run, c.isDigit = true ∨ c = ' ' ∨ c = '.') →
      d1.isDigit = true → d2.isDigit = true →
      pyFloatCents (normalizeAmt (d :: run ++ [',', d1, d2])) =
        some (natOfDigits (d :: run.filter Char.isDigit) * 100 +
          (10 * (d1.toNat - 48) + (d2.toNat - 48)))) ∧
    pyFloatCents (normalizeAmt "1.529,00".data) = some 152900 ∧
    pyFloatCents (normalizeAmt "349,00".data) = some 34900 := by
  refine ⟨?_, by decide, by decide⟩
  intro d run d1 d2 hd h h1 h2
  have hshape := normalizeAmt_shape d run d1 d2 hd h h1 h2
  have hall : ∀ c ∈ d :: run.filter Char.isDigit, c.isDigit = true := by
    intro c hc
    rcases List.mem_cons.mp hc with rfl | hc
    · exact hd
    · exact (List.mem_filter.mp hc).2
  obtain ⟨ht, hdrp⟩ := take_drop_digits (d :: run.filter Char.isDigit) [d1, d2] hall
  unfold pyFloatCents
  rw [hshape, hdrp, ht]
  simp [h1, h2]

/-- C4 (witness): the normalization round trip instantiated on the
token `"1.529,00"`. -/
theorem c4_witness : pyFloatCents (normalizeAmt "1.529,00".data) = some 152900 := by
  have := c4_normalization.1 '1' ['.', '5', '2', '9'] '0' '0'
    (by decide) (by decide) (by decide) (by decide)
  simpa using this

/-- C5: the classifier lower-cases the description, scans the category
table in its fixed order and returns the first entry any of whose
keywords occurs in the lowered description, falling back to
`'General Shopping'` when none matches; a description matching two
categories (here Health and Travel via `"apotek fly"`) gets the
earlier one. -/
theorem c5_classifier :
    (∀ (desc : List Char) (l1 : List (String × List String))
        (e : String × List String) (l2 : List (String × List String)),
      mapping = l1 ++ e :: l2 →
      (∀ x ∈ l1, entryMatches (desc.map pyToLower) x = false) →
      entryMatches (desc.map pyToLower) e = true →
      get_category desc = e.1) ∧
    (∀ desc : List Char,
      (∀ x ∈ mapping, entryMatches (desc.map pyToLower) x = false) →
      get_category desc = "General Shopping") ∧
    get_category "apotek fly".data = "Health" := by
  refine ⟨?_, ?_, by decide⟩
  · intro desc l1 e l2 hm h1 he
    unfold get_category
    rw [hm, find?_first _ l1 e l2 h1 he]
  · intro desc h
    unfold get_category
    rw [List.find?_eq_none.mpr (fun x hx => by simp [h x hx])]

/-- C5 (witness): the first-match rule applied to the description
`"spotify"`, matched by the first table entry. -/
theorem c5_witness : get_category "spotify".data = "Subscriptions" := by
  have := c5_classifier.1 "spotify".data []
    ("Subscriptions",
      ["apple.com", "adobe", "openai", "chatgpt", "microsoft", "spotify", "muslimi.com"])
    (mapping.drop 1) rfl (by simp) (by decide)
  simpa using this

/-- C6 (counterexample): no keyword of the configured table occurs in
`"netflix.com"`, so the classifier returns the fallback
`'General Shopping'`, not the `Subscriptions` the claim asserts. -/
theorem c6_counterexample :
    get_category "NETFLIX.COM".data = "General Shopping" ∧
    get_category "NETFLIX.COM".data ≠ "Subscriptions" := by
  constructor
  · decide
  · decide

/-- C6 (amended): the description `"NETFLIX.COM"` is classified
`'General Shopping'` (the table has no matching keyword), and the line
`"1512 NETFLIX.COM 129,00"` yields exactly the Transaction with
description `NETFLIX.COM`, amount `129.00`, category
`'General Shopping'`, month December. -/
theorem c6_amended :
    get_category "NETFLIX.COM".data = "General Shopping" ∧
    parseLine "1512 NETFLIX.COM 129,00".data =
      some ⟨"December", ['1', '5', '1', '2'],
        ['N', 'E', 'T', 'F', 'L', 'I', 'X', '.', 'C', 'O', 'M'], 12900,
        "General Shopping"⟩ := by
  constructor
  · decide
  · decide

/-- C7 (counterexample): a page whose text extraction returns null
raises out of `parse_pdf` even when another page parsed fine, and a
file whose reading raises aborts the whole multi-file batch - the
exception does escape. -/
theorem c7_counterexample :
    parsePdf [some "KIWI 100,00", Option.none] = Except.error () ∧
    master_df [Except.ok [some "KIWI 100,00"], Except.error ()] =
      Except.error () :=
  ⟨rfl, rfl⟩

/-- C7 (amended): as long as every page's extracted text is a string,
`parse_pdf` never raises, and a page with empty text contributes zero
candidates; but there is no page- or file-level exception handling, so
a null page text or an unreadable file propagates an error out of the
batch. -/
theorem c7_amended :
    (∀ pages : List (Option String), (∀ p ∈ pages, p ≠ Option.none) →
      ∃ ts, parsePdf pages = Except.ok ts) ∧
    parsePage "" = [] ∧
    parsePdf [some ""] = Except.ok [] := by
  refine ⟨?_, by decide, by rfl⟩
  intro pages h
  induction pages with
  | nil => exact ⟨[], rfl⟩
  | cons p ps ih =>
    obtain ⟨ts, hts⟩ := ih (fun q hq => h q (List.mem_cons_of_mem _ hq))
    cases p with
    | none => exact absurd rfl (h Option.none (List.mem_cons_self _ _))
    | some t => exact ⟨parsePage t ++ ts, by rw [parsePdf, hts]⟩

/-- C7 (witness): the no-raise guarantee instantiated on a one-page
document whose page text is the empty string. -/
theorem c7_witness : ∃ ts, parsePdf [some ""] = Except.ok ts :=
  c7_amended.1 [some ""] (by decide)

/-- C8 (counterexample): the line `" 5,00"` is emitted as a
Transaction whose description is empty - the parser applies no
minimum-length check on descriptions. -/
theorem c8_counterexample :
    parseLine " 5,00".data =
      some ⟨"January", ['0', '1', '0', '1'], [], 500, "General Shopping"⟩ := by
  decide

/-- C8 (amended): an emitted Transaction's description is exactly the
stripped pre-amount text with a leading four-digit prefix removed, with
no length filtering: descriptions of length two (`"AB 9,00"`) and even
zero are emitted. -/
theorem c8_amended :
    (∀ line t, parseLine line = some t →
      ∃ g1 tok, searchDescAmt line = some (g1, tok) ∧
        t.description = cleanDatePrefix (pyStrip g1)) ∧
    parseLine "AB 9,00".data =
      some ⟨"January", ['0', '1', '0', '1'], ['A', 'B'], 900,
        "General Shopping"⟩ := by
  refine ⟨?_, by decide⟩
  intro line t h
  obtain ⟨-, g1, tok, amt, mn, h1, -, -, -, ht⟩ := parseLine_inv h
  exact ⟨g1, tok, h1, by rw [ht]⟩

/-- C8 (witness): the description-shape property instantiated on the
line `"AB 9,00"`. -/
theorem c8_witness :
    ∃ g1 tok, searchDescAmt "AB 9,00".data = some (g1, tok) ∧
      (Transaction.mk "January" ['0', '1', '0', '1'] ['A', 'B'] 900
        "General Shopping").description = cleanDatePrefix (pyStrip g1) :=
  c8_amended.1 "AB 9,00".data _ (by decide)

/-- C9: the merged working set keeps exactly one copy of every row
present in the concatenation (full-record equality), and two uploaded
files each containing the line `"KIWI 100,00"` merge to that record
exactly once. -/
theorem c9_dedup :
    (∀ (l : List Transaction) (t : Transaction), t ∈ l →
      countOcc t (dropDuplicates l) = 1) ∧
    master_df [Except.ok [some "KIWI 100,00"], Except.ok [some "KIWI 100,00"]] =
      Except.ok [⟨"January", ['0', '1', '0', '1'], ['K', 'I', 'W', 'I'], 10000,
        "Food & Groceries"⟩] := by
  refine ⟨?_, by rfl⟩
  intro l t ht
  rw [countOcc_dropDuplicates, if_pos ht]

/-- C9 (witness): the single-copy property instantiated on the
duplicated KIWI row. -/
theorem c9_witness :
    countOcc
      (Transaction.mk "January" ['0', '1', '0', '1'] ['K', 'I', 'W', 'I'] 10000
        "Food & Groceries")
      (dropDuplicates
        [Transaction.mk "January" ['0', '1', '0', '1'] ['K', 'I', 'W', 'I'] 10000
          "Food & Groceries",
         Transaction.mk "January" ['0', '1', '0', '1'] ['K', 'I', 'W', 'I'] 10000
          "Food & Groceries"]) = 1 :=
  c9_dedup.1 _ _ (by decide)

/-- C10: a line that passes the noise filter and carries an in-bounds
amount is still discarded when the last two digits of the line's first
four-digit run do not form a month 1..12: the `datetime` call raises
and the bare `except` drops the line. -/
theorem c10_month_reject (line g1 tok : List Char) (amt : Nat)
    (a b c d : Char)
    (hn : noiseCheck line = false)
    (hsearch : searchDescAmt line = some (g1, tok))
    (hfloat : pyFloatCents (normalizeAmt tok) = some amt)
    (hlo : 100 ≤ amt) (hhi : amt < 2000000)
    (hffd : firstFourDigits line = some (a, b, c, d))
    (hm : ¬(1 ≤ 10 * (c.toNat - 48) + (d.toNat - 48) ∧
      10 * (c.toNat - 48) + (d.toNat - 48) ≤ 12)) :
    parseLine line = none := by
  have hdate : dateOf line = [a, b, c, d] := by
    unfold dateOf
    rw [hffd]
  have hmn : monthName (monthOf (dateOf line)) = none := by
    rw [hdate]
    exact monthName_eq_none hm
  unfold parseLine
  rw [if_neg (by simp [hn]), hsearch]
  simp only [hfloat, hmn, if_pos (And.intro hlo hhi)]

/-- C10 (witness): the month-rejection theorem applied to the line
`"KIWI 1529,00"`, whose first four-digit run is the amount's own
digits `1529`, with `29` an invalid month. -/
theorem c10_witness : parseLine "KIWI 1529,00".data = none :=
  c10_month_reject "KIWI 1529,00".data "KIWI".data "1529,00".data 152900
    '1' '5' '2' '9' (by decide) (by decide) (by decide) (by decide)
    (by decide) (by decide) (by decide)
